import Mathlib

/-!
# OP Face — verification of the mint-authorization and provenance core

Shallow embedding of `src/contract/src/contracts/OPFace.ts` (the OP Face
contract for the OP_NET platform).  Machine integers of the source
(`u64` values in satoshis, `u256` token ids, counters and block numbers)
are modelled as `Nat`: every quantity the contract manipulates is bounded
far below `2^64`/`2^256` (supply cap 100, token ids at most 101,
satoshi amounts), so no arithmetic in the embedded code can overflow and
the `Nat` semantics agrees with the machine semantics on all states the
theorems range over.  `SafeMath.add` (which traps instead of wrapping)
therefore coincides with plain `Nat` addition here.

The inherited OP721 base class lives in the external package
`@btc-vision/btc-runtime`, not in this repository; the spec lists its
primitives as collaborators assumed correct (`_mint`, `_setTokenURI`,
`_exists`, transfer).  Those are modelled from the spec's description of
the collaborator interface and marked as such in their doc comments.
Fallible entry points return `Except ContractError _`; `Revert` throw
sites are tagged by the spec's error taxonomy (`SupplyExceeded`,
`PaymentNotFound`, `TokenNotFound`) with the exact message strings the
source builds.
-/

namespace OPFace

/-- Source: `const MINT_PRICE: u64 = 500_000;` (OPFace.ts line 20). -/
def MINT_PRICE : Nat := 500000

/-- Source: `const TREASURY: string = '...';` (OPFace.ts line 23). -/
def TREASURY : String :=
  "bcrt1pzcu0e6e04uc5l43fvrr2czh2fxh5my8c08ggnywghw3hchznqdcsr9x2s9"

/-- One value-transfer output of the enclosing Bitcoin transaction:
`dest` embeds the source's `out.to`, a nullable string (the decoded
bech32 address; `to` is a reserved word in Lean), `value` the amount in
satoshis (`u64`). -/
structure TxOutput where
  dest : Option String
  value : Nat
deriving DecidableEq, Repr

/-- The transaction context `Blockchain.tx` / `Blockchain.block` the
contract reads: sender address (an `Address`, modelled as `Nat` — the
contract only stores and compares it), the output list, and the current
block number. -/
structure Tx where
  sender : Nat
  outputs : List TxOutput
  blockNumber : Nat
deriving DecidableEq, Repr

/-- `StoredMapU256` model: an association list where a `set` prepends and
a get returns the most recent binding for the key. -/
def mapGet? {α : Type} (m : List (Nat × α)) (k : Nat) : Option α :=
  (m.find? (fun p => p.1 == k)).map (fun p => p.2)

/-- `StoredMapU256.set`: overwrite the binding for `k`. -/
def mapSet {α : Type} (m : List (Nat × α)) (k : Nat) (v : α) : List (Nat × α) :=
  (k, v) :: m

/-- Ledger-resident state of one deployed OPFace contract:
`totalSupply` and `nextTokenId` are the inherited `_totalSupply` /
`_nextTokenId` `u256` cells; `owners` and `uris` are the inherited
OP721 ownership and metadata-URI tables; `minters` and `mintBlocks` are
the contract's own `_minterOf` / `_mintedAt` stored maps. -/
structure ContractState where
  totalSupply : Nat
  nextTokenId : Nat
  owners : List (Nat × Nat)
  uris : List (Nat × String)
  minters : List (Nat × Nat)
  mintBlocks : List (Nat × Nat)
deriving DecidableEq, Repr

/-- The spec's error taxonomy; each constructor tags one `Revert` throw
site of the source and carries the message string that site builds. -/
inductive ContractError where
  | supplyExceeded (msg : String)
  | paymentNotFound (msg : String)
  | tokenNotFound (msg : String)
deriving DecidableEq, Repr

/-- Message of `throw new Revert('OPFace: max supply of 100 reached')`
(OPFace.ts line 74). -/
def supplyExceededMsg : String := "OPFace: max supply of 100 reached"

/-- Message of the `Revert` thrown by `_requireTreasuryPayment`
(OPFace.ts lines 163-166), with the template holes
`${MINT_PRICE}` and `${TREASURY}` interpolated exactly as the source
does. -/
def paymentNotFoundMsg : String :=
  "OPFace: no output found sending " ++ toString MINT_PRICE ++
    " sat to treasury. " ++
    ("Include an output to " ++ TREASURY ++ " with at least 0.005 tBTC.")

/-- Message of the `Revert` thrown by `_requireExists`
(OPFace.ts line 173), with `${tokenId}` interpolated in decimal. -/
def tokenNotFoundMsg (tokenId : Nat) : String :=
  "OPFace: token " ++ toString tokenId ++ " does not exist"

/-- OPFace.ts lines 154-167: scan the transaction outputs in order and
return on the first output with `out.to !== null && out.to === TREASURY
&& out.value >= MINT_PRICE`; throw `PaymentNotFound` when the scan
exhausts the list. -/
def _requireTreasuryPayment : List TxOutput → Except ContractError Unit
  | [] => .error (.paymentNotFound paymentNotFoundMsg)
  | out :: rest =>
      if out.dest = some TREASURY ∧ MINT_PRICE ≤ out.value then .ok ()
      else _requireTreasuryPayment rest

/-- Modelled from the spec: the inherited OP721 ledger mutation primitive
`_mint(owner, id)` is not under `src/`; per the spec it "sets owner =
caller, increments SupplyCounter, and emits a standard ownership-transfer
event" (the event carries no state and is not modelled). -/
def op721Mint (s : ContractState) (owner tokenId : Nat) : ContractState :=
  { s with owners := mapSet s.owners tokenId owner
           totalSupply := s.totalSupply + 1 }

/-- Modelled from the spec: the inherited metadata-URI store
`_setTokenURI(id, uri)` persists the supplied URI string against the id. -/
def _setTokenURI (s : ContractState) (tokenId : Nat) (uri : String) :
    ContractState :=
  { s with uris := mapSet s.uris tokenId uri }

/-- Modelled from the spec: the inherited existence predicate
`_exists(id)` — "tokenId must refer to an existing token (owner lookup
succeeds)". -/
def _exists (s : ContractState) (tokenId : Nat) : Bool :=
  (mapGet? s.owners tokenId).isSome

/-- OPFace.ts lines 45-61 (`onDeployment`): `instantiate` fixes the
collection metadata and `maxSupply = 100` (constants, kept outside the
state); the ledger tables start empty, `SupplyCounter = 0`, and
`this._nextTokenId.value = u256.One`. -/
def onDeployment : ContractState :=
  { totalSupply := 0, nextTokenId := 1,
    owners := [], uris := [], minters := [], mintBlocks := [] }

/-- OPFace.ts lines 68-100 (`mint`), step for step:
1. `if (this._totalSupply.value >= u256.fromU32(100)) throw Revert(...)`;
2. `this._requireTreasuryPayment()`;
3. `tokenId = this._nextTokenId.value`;
4. `this._mint(sender, tokenId)`;
5. `this._setTokenURI(tokenId, uri)`;
6. `this._minterOf.set(tokenId, u256FromAddress(sender))` and
   `this._mintedAt.set(tokenId, Blockchain.block.number)`;
7. `this._nextTokenId.value = SafeMath.add(tokenId, u256.One)`
   (trap-free here: `tokenId` is far below the `u256` limit on every
   state a theorem visits);
8. return `tokenId`. -/
def mint (s : ContractState) (tx : Tx) (uri : String) :
    Except ContractError (Nat × ContractState) :=
  if 100 ≤ s.totalSupply then .error (.supplyExceeded supplyExceededMsg)
  else
    match _requireTreasuryPayment tx.outputs with
    | .error e => .error e
    | .ok _ =>
        let tokenId := s.nextTokenId
        let s1 := op721Mint s tx.sender tokenId
        let s2 := _setTokenURI s1 tokenId uri
        let s3 := { s2 with minters := mapSet s2.minters tokenId tx.sender
                            mintBlocks := mapSet s2.mintBlocks tokenId tx.blockNumber }
        let s4 := { s3 with nextTokenId := tokenId + 1 }
        .ok (tokenId, s4)

/-- A `mint` transaction as the platform executes it: on a throw the
platform reverts atomically, so the post-state of a failed call is the
pre-state (spec: "first failing condition aborts the entire call with no
state change — ledger mutation platforms guarantee this atomicity"). -/
def mintCall (s : ContractState) (tx : Tx) (uri : String) :
    Except ContractError Nat × ContractState :=
  match mint s tx uri with
  | .ok (tokenId, s1) => (.ok tokenId, s1)
  | .error e => (.error e, s)

/-- OPFace.ts lines 171-175 (`_requireExists`). -/
def _requireExists (s : ContractState) (tokenId : Nat) :
    Except ContractError Unit :=
  if _exists s tokenId then .ok ()
  else .error (.tokenNotFound (tokenNotFoundMsg tokenId))

/-- OPFace.ts lines 106-114 (`minterOf`): require existence, then read
`_minterOf.get(tokenId)` (a `StoredMapU256` get, whose default for an
unset key is zero). -/
def minterOf (s : ContractState) (tokenId : Nat) :
    Except ContractError Nat :=
  match _requireExists s tokenId with
  | .error e => .error e
  | .ok _ => .ok ((mapGet? s.minters tokenId).getD 0)

/-- OPFace.ts lines 120-128 (`mintedAt`): require existence, then read
`_mintedAt.get(tokenId)`. -/
def mintedAt (s : ContractState) (tokenId : Nat) :
    Except ContractError Nat :=
  match _requireExists s tokenId with
  | .error e => .error e
  | .ok _ => .ok ((mapGet? s.mintBlocks tokenId).getD 0)

/-- OPFace.ts lines 134-138 (`mintPrice`): writes `u256.fromU64(MINT_PRICE)`
and reads no storage; the state parameter records that the method is
called on a deployed contract but cannot influence the result. -/
def mintPrice (_s : ContractState) : Nat := MINT_PRICE

/-- OPFace.ts lines 144-150 (`treasury`): encodes the constant `TREASURY`
string and reads no storage. -/
def treasury (_s : ContractState) : String := TREASURY

/-- Modelled from the spec: the inherited OP721 transfer operation —
"TokenRecord's owner field may be mutated later by transfer operations";
it touches only the owner of an existing token, and a transfer of a
nonexistent token aborts with no state change (platform atomicity). -/
def transferOwner (s : ContractState) (newOwner tokenId : Nat) :
    ContractState :=
  if _exists s tokenId then { s with owners := mapSet s.owners tokenId newOwner }
  else s

/-- The operations that can mutate a deployed contract's state: a `mint`
call, or an inherited transfer.  The read entry points (`minterOf`,
`mintedAt`, `mintPrice`, `treasury`) perform no storage writes in the
source and are embedded as pure functions of the state, so they do not
appear here. -/
inductive ContractOp where
  | mintCallOp (tx : Tx) (uri : String)
  | transferOp (newOwner tokenId : Nat)
deriving Repr

/-- Post-state of one operation (failed calls revert atomically). -/
def applyOp (s : ContractState) : ContractOp → ContractState
  | .mintCallOp tx uri => (mintCall s tx uri).2
  | .transferOp newOwner tokenId => transferOwner s newOwner tokenId

/-- Run a sequence of operations. -/
def runOps (s : ContractState) : List ContractOp → ContractState
  | [] => s
  | op :: rest => runOps (applyOp s op) rest

/-- States reachable from deployment by some sequence of calls. -/
def Reachable (s : ContractState) : Prop :=
  ∃ ops : List ContractOp, runOps onDeployment ops = s

/-- Number of successful mint calls in a sequence of operations executed
from `s`. -/
def mintSuccesses (s : ContractState) : List ContractOp → Nat
  | [] => 0
  | op :: rest =>
      (match op with
       | .mintCallOp tx uri =>
           match mint s tx uri with
           | .ok _ => 1
           | .error _ => 0
       | .transferOp _ _ => 0) + mintSuccesses (applyOp s op) rest

/-- Concrete transaction carrying a qualifying treasury payment of exactly
the mint price. -/
def txPaid : Tx :=
  { sender := 7, outputs := [{ dest := some TREASURY, value := 500000 }],
    blockNumber := 42 }

/-- Concrete transaction with no qualifying output: one large payment
elsewhere and one underpaying treasury output. -/
def txUnpaid : Tx :=
  { sender := 7,
    outputs := [{ dest := some "bcrt1qother", value := 9999999 },
                { dest := some TREASURY, value := 400000 }],
    blockNumber := 42 }

/-- A sold-out contract state: supply cap reached. -/
def fullState : ContractState :=
  { totalSupply := 100, nextTokenId := 101,
    owners := [], uris := [], minters := [], mintBlocks := [] }

/-- The post-state of a successful `mint`, written out: counters advance
by one and each table gains the binding for the fresh token id.  `mint`
computes exactly this record (see `mint_ok_inv`). -/
def mintedState (s : ContractState) (tx : Tx) (uri : String) : ContractState :=
  { totalSupply := s.totalSupply + 1
    nextTokenId := s.nextTokenId + 1
    owners := mapSet s.owners s.nextTokenId tx.sender
    uris := mapSet s.uris s.nextTokenId uri
    minters := mapSet s.minters s.nextTokenId tx.sender
    mintBlocks := mapSet s.mintBlocks s.nextTokenId tx.blockNumber }

example : mint onDeployment txPaid "ipfs://a" =
    .ok (1, { totalSupply := 1, nextTokenId := 2,
              owners := [(1, 7)], uris := [(1, "ipfs://a")],
              minters := [(1, 7)], mintBlocks := [(1, 42)] }) := rfl

example : mint onDeployment txUnpaid "ipfs://a" =
    .error (.paymentNotFound paymentNotFoundMsg) := rfl

set_option maxRecDepth 8000 in
example : paymentNotFoundMsg =
    "OPFace: no output found sending 500000 sat to treasury. Include an output to bcrt1pzcu0e6e04uc5l43fvrr2czh2fxh5my8c08ggnywghw3hchznqdcsr9x2s9 with at least 0.005 tBTC." := by
  decide

/-! ## Map lemmas -/

theorem mapGet?_mapSet {α : Type} (m : List (Nat × α)) (k j : Nat) (v : α) :
    mapGet? (mapSet m k v) j = if j = k then some v else mapGet? m j := by
  by_cases h : j = k
  · subst h; simp [mapGet?, mapSet, List.find?]
  · have hb : (k == j) = false := beq_eq_false_iff_ne.mpr (Ne.symm h)
    simp [mapGet?, mapSet, List.find?, h, hb]

theorem mapGet?_mapSet_self {α : Type} (m : List (Nat × α)) (k : Nat) (v : α) :
    mapGet? (mapSet m k v) k = some v := by
  simp [mapGet?_mapSet]

theorem mapGet?_mapSet_ne {α : Type} (m : List (Nat × α)) (k j : Nat) (v : α)
    (h : j ≠ k) : mapGet? (mapSet m k v) j = mapGet? m j := by
  simp [mapGet?_mapSet, h]

/-! ## Payment-scan lemmas -/

theorem payment_error_of_no_qualifying_output (outs : List TxOutput)
    (h : ∀ out ∈ outs, ¬(out.dest = some TREASURY ∧ MINT_PRICE ≤ out.value)) :
    _requireTreasuryPayment outs = .error (.paymentNotFound paymentNotFoundMsg) := by
  induction outs with
  | nil => rfl
  | cons out rest ih =>
      rw [_requireTreasuryPayment, if_neg (h out (List.mem_cons_self out rest))]
      exact ih (fun o ho => h o (List.mem_cons_of_mem out ho))

theorem payment_ok_of_qualifying_output (outs : List TxOutput)
    (h : ∃ out ∈ outs, out.dest = some TREASURY ∧ MINT_PRICE ≤ out.value) :
    _requireTreasuryPayment outs = .ok () := by
  induction outs with
  | nil => simp at h
  | cons out rest ih =>
      by_cases hc : out.dest = some TREASURY ∧ MINT_PRICE ≤ out.value
      · rw [_requireTreasuryPayment, if_pos hc]
      · rw [_requireTreasuryPayment, if_neg hc]
        obtain ⟨o, ho, hq⟩ := h
        rcases List.mem_cons.mp ho with rfl | ho2
        · exact absurd hq hc
        · exact ih ⟨o, ho2, hq⟩

theorem payment_error_shape (outs : List TxOutput) (e : ContractError)
    (h : _requireTreasuryPayment outs = .error e) :
    e = .paymentNotFound paymentNotFoundMsg := by
  induction outs with
  | nil =>
      rw [_requireTreasuryPayment] at h
      exact (Except.error.inj h).symm
  | cons out rest ih =>
      rw [_requireTreasuryPayment] at h
      split at h
      · exact absurd h (by simp)
      · exact ih h

/-! ## Mint unfolding lemmas -/

theorem mint_supply_error (s : ContractState) (tx : Tx) (uri : String)
    (hs : 100 ≤ s.totalSupply) :
    mint s tx uri = .error (.supplyExceeded supplyExceededMsg) := by
  rw [mint, if_pos hs]

theorem mint_payment_error (s : ContractState) (tx : Tx) (uri : String)
    (hs : s.totalSupply < 100)
    (hp : _requireTreasuryPayment tx.outputs =
      .error (.paymentNotFound paymentNotFoundMsg)) :
    mint s tx uri = .error (.paymentNotFound paymentNotFoundMsg) := by
  rw [mint, if_neg (by omega), hp]

theorem mint_success (s : ContractState) (tx : Tx) (uri : String)
    (hs : s.totalSupply < 100)
    (hp : _requireTreasuryPayment tx.outputs = .ok ()) :
    mint s tx uri = .ok (s.nextTokenId, mintedState s tx uri) := by
  rw [mint, if_neg (by omega), hp]
  rfl

theorem mint_ok_inv (s : ContractState) (tx : Tx) (uri : String)
    (tokenId : Nat) (s1 : ContractState)
    (h : mint s tx uri = .ok (tokenId, s1)) :
    s.totalSupply < 100 ∧ _requireTreasuryPayment tx.outputs = .ok () ∧
      tokenId = s.nextTokenId ∧ s1 = mintedState s tx uri := by
  rw [mint] at h
  split at h
  · exact Except.noConfusion h
  · rename_i hns
    cases hpm : _requireTreasuryPayment tx.outputs with
    | error e => rw [hpm] at h; exact Except.noConfusion h
    | ok u =>
        cases u
        rw [hpm] at h
        have h2 := Except.ok.inj h
        have htid := congrArg Prod.fst h2
        have hst := congrArg Prod.snd h2
        exact ⟨by omega, rfl, htid.symm, hst.symm⟩

theorem mint_error_inv (s : ContractState) (tx : Tx) (uri : String)
    (e : ContractError) (h : mint s tx uri = .error e) :
    (100 ≤ s.totalSupply ∧ e = .supplyExceeded supplyExceededMsg) ∨
      (s.totalSupply < 100 ∧
        _requireTreasuryPayment tx.outputs =
          .error (.paymentNotFound paymentNotFoundMsg) ∧
        e = .paymentNotFound paymentNotFoundMsg) := by
  rw [mint] at h
  split at h
  · rename_i hs
    exact Or.inl ⟨hs, (Except.error.inj h).symm⟩
  · rename_i hns
    cases hpm : _requireTreasuryPayment tx.outputs with
    | error e2 =>
        rw [hpm] at h
        have he : e2 = e := Except.error.inj h
        have hshape := payment_error_shape tx.outputs e2 hpm
        exact Or.inr ⟨by omega, by rw [hshape], he ▸ hshape⟩
    | ok u => cases u; rw [hpm] at h; exact Except.noConfusion h

/-! ## Operation-sequence lemmas -/

/-- Whether one operation is a successful mint when executed from `s`. -/
def opMintSuccess (s : ContractState) : ContractOp → Nat
  | .mintCallOp tx uri =>
      match mint s tx uri with
      | .ok _ => 1
      | .error _ => 0
  | .transferOp _ _ => 0

theorem mintSuccesses_cons (s : ContractState) (op : ContractOp)
    (rest : List ContractOp) :
    mintSuccesses s (op :: rest) =
      opMintSuccess s op + mintSuccesses (applyOp s op) rest := by
  cases op with
  | mintCallOp tx uri =>
      rw [mintSuccesses, opMintSuccess]
  | transferOp a id =>
      rw [mintSuccesses, opMintSuccess]

theorem applyOp_counters (s : ContractState) (op : ContractOp) :
    (applyOp s op).totalSupply = s.totalSupply + opMintSuccess s op ∧
      (applyOp s op).nextTokenId = s.nextTokenId + opMintSuccess s op := by
  cases op with
  | transferOp a id =>
      rw [applyOp, opMintSuccess, transferOwner]
      split <;> exact ⟨rfl, rfl⟩
  | mintCallOp tx uri =>
      rw [applyOp, opMintSuccess, mintCall]
      cases h : mint s tx uri with
      | error e => exact ⟨rfl, rfl⟩
      | ok p =>
          obtain ⟨tid, s1⟩ := p
          obtain ⟨-, -, -, hst⟩ := mint_ok_inv s tx uri tid s1 h
          subst hst
          exact ⟨rfl, rfl⟩

theorem applyOp_supply_le (s : ContractState) (op : ContractOp)
    (h : s.totalSupply ≤ 100) : (applyOp s op).totalSupply ≤ 100 := by
  cases op with
  | transferOp a id =>
      rw [applyOp, transferOwner]
      split <;> exact h
  | mintCallOp tx uri =>
      rw [applyOp, mintCall]
      cases hm : mint s tx uri with
      | error e => exact h
      | ok p =>
          obtain ⟨tid, s1⟩ := p
          obtain ⟨hlt, -, -, hst⟩ := mint_ok_inv s tx uri tid s1 hm
          subst hst
          simp only [mintedState]
          omega

theorem runOps_counters (ops : List ContractOp) :
    ∀ s : ContractState,
      (runOps s ops).totalSupply = s.totalSupply + mintSuccesses s ops ∧
        (runOps s ops).nextTokenId = s.nextTokenId + mintSuccesses s ops := by
  induction ops with
  | nil => intro s; exact ⟨rfl, rfl⟩
  | cons op rest ih =>
      intro s
      obtain ⟨h1, h2⟩ := ih (applyOp s op)
      obtain ⟨g1, g2⟩ := applyOp_counters s op
      rw [runOps, mintSuccesses_cons]
      constructor
      · rw [h1, g1]; omega
      · rw [h2, g2]; omega

theorem runOps_supply_le (ops : List ContractOp) :
    ∀ s : ContractState, s.totalSupply ≤ 100 →
      (runOps s ops).totalSupply ≤ 100 := by
  induction ops with
  | nil => intro s h; exact h
  | cons op rest ih =>
      intro s h
      rw [runOps]
      exact ih (applyOp s op) (applyOp_supply_le s op h)

/-! ## Structural invariant of reachable states -/

/-- Invariant of every reachable state: the id counter is one past the
supply counter, the supply never exceeds the cap, and each per-token
table holds an entry exactly for the ids `1 .. totalSupply`. -/
def wellFormed (s : ContractState) : Prop :=
  s.nextTokenId = s.totalSupply + 1 ∧
  s.totalSupply ≤ 100 ∧
  (∀ id, (mapGet? s.owners id).isSome = true ↔ 1 ≤ id ∧ id ≤ s.totalSupply) ∧
  (∀ id, (mapGet? s.minters id).isSome = true ↔ 1 ≤ id ∧ id ≤ s.totalSupply) ∧
  (∀ id, (mapGet? s.mintBlocks id).isSome = true ↔ 1 ≤ id ∧ id ≤ s.totalSupply)

theorem wellFormed_onDeployment : wellFormed onDeployment := by
  refine ⟨rfl, by decide, ?_, ?_, ?_⟩ <;>
    · intro id
      simp [onDeployment, mapGet?, List.find?]
      omega

theorem wellFormed_mintedState (s : ContractState) (tx : Tx) (uri : String)
    (hwf : wellFormed s) (hlt : s.totalSupply < 100) :
    wellFormed (mintedState s tx uri) := by
  obtain ⟨hn, hle, how, hmi, hmb⟩ := hwf
  refine ⟨?_, ?_, ?_, ?_, ?_⟩
  · simp only [mintedState]
    omega
  · simp only [mintedState]
    omega
  · intro id
    simp only [mintedState]
    rw [mapGet?_mapSet]
    split
    · rename_i hid
      simp
      omega
    · rename_i hid
      rw [how id]
      omega
  · intro id
    simp only [mintedState]
    rw [mapGet?_mapSet]
    split
    · rename_i hid
      simp
      omega
    · rename_i hid
      rw [hmi id]
      omega
  · intro id
    simp only [mintedState]
    rw [mapGet?_mapSet]
    split
    · rename_i hid
      simp
      omega
    · rename_i hid
      rw [hmb id]
      omega

theorem wellFormed_applyOp (s : ContractState) (op : ContractOp)
    (hwf : wellFormed s) : wellFormed (applyOp s op) := by
  cases op with
  | mintCallOp tx uri =>
      rw [applyOp, mintCall]
      cases hm : mint s tx uri with
      | error e => exact hwf
      | ok p =>
          obtain ⟨tid, s1⟩ := p
          obtain ⟨hlt, -, -, hst⟩ := mint_ok_inv s tx uri tid s1 hm
          subst hst
          exact wellFormed_mintedState s tx uri hwf hlt
  | transferOp a id =>
      obtain ⟨hn, hle, how, hmi, hmb⟩ := hwf
      rw [applyOp, transferOwner]
      split
      · rename_i hex
        refine ⟨hn, hle, ?_, hmi, hmb⟩
        intro j
        simp only []
        rw [mapGet?_mapSet]
        split
        · rename_i hj
          subst hj
          simp
          exact (how j).mp (by simpa [_exists] using hex)
        · exact how j
      · exact ⟨hn, hle, how, hmi, hmb⟩

theorem wellFormed_runOps (ops : List ContractOp) :
    ∀ s : ContractState, wellFormed s → wellFormed (runOps s ops) := by
  induction ops with
  | nil => intro s h; exact h
  | cons op rest ih =>
      intro s h
      rw [runOps]
      exact ih (applyOp s op) (wellFormed_applyOp s op h)

theorem reachable_wellFormed (s : ContractState) (h : Reachable s) :
    wellFormed s := by
  obtain ⟨ops, hops⟩ := h
  exact hops ▸ wellFormed_runOps ops onDeployment wellFormed_onDeployment

/-! ## Provenance-preservation lemmas -/

theorem applyOp_preserves_provenance (s : ContractState) (op : ContractOp)
    (hwf : wellFormed s) (id : Nat) :
    (∀ m, mapGet? s.minters id = some m →
       mapGet? (applyOp s op).minters id = some m) ∧
    (∀ b, mapGet? s.mintBlocks id = some b →
       mapGet? (applyOp s op).mintBlocks id = some b) := by
  cases op with
  | transferOp a j =>
      rw [applyOp, transferOwner]
      split <;> exact ⟨fun m hm => hm, fun b hb => hb⟩
  | mintCallOp tx uri =>
      rw [applyOp, mintCall]
      cases hm : mint s tx uri with
      | error e => exact ⟨fun m h => h, fun b h => h⟩
      | ok p =>
          obtain ⟨tid, s1⟩ := p
          obtain ⟨hlt, -, -, hst⟩ := mint_ok_inv s tx uri tid s1 hm
          subst hst
          obtain ⟨hn, -, -, hmi, hmb⟩ := hwf
          constructor
          · intro m h
            have hid : 1 ≤ id ∧ id ≤ s.totalSupply :=
              (hmi id).mp (by rw [h]; rfl)
            have hne : id ≠ s.nextTokenId := by omega
            simp only [mintedState]
            rw [mapGet?_mapSet_ne _ _ _ _ hne]
            exact h
          · intro b h
            have hid : 1 ≤ id ∧ id ≤ s.totalSupply :=
              (hmb id).mp (by rw [h]; rfl)
            have hne : id ≠ s.nextTokenId := by omega
            simp only [mintedState]
            rw [mapGet?_mapSet_ne _ _ _ _ hne]
            exact h

theorem runOps_preserves_provenance (ops : List ContractOp) :
    ∀ s : ContractState, wellFormed s → ∀ id m b,
      mapGet? s.minters id = some m → mapGet? s.mintBlocks id = some b →
      mapGet? (runOps s ops).minters id = some m ∧
        mapGet? (runOps s ops).mintBlocks id = some b := by
  induction ops with
  | nil => intro s _ id m b hm hb; exact ⟨hm, hb⟩
  | cons op rest ih =>
      intro s hwf id m b hm hb
      obtain ⟨pm, pb⟩ := applyOp_preserves_provenance s op hwf id
      rw [runOps]
      exact ih (applyOp s op) (wellFormed_applyOp s op hwf) id m b
        (pm m hm) (pb b hb)

/-! ## Read-endpoint lemmas -/

theorem minterOf_ok (s : ContractState) (id : Nat)
    (hex : _exists s id = true) :
    minterOf s id = .ok ((mapGet? s.minters id).getD 0) := by
  rw [minterOf, _requireExists, if_pos hex]

theorem minterOf_err (s : ContractState) (id : Nat)
    (hex : _exists s id = false) :
    minterOf s id = .error (.tokenNotFound (tokenNotFoundMsg id)) := by
  rw [minterOf, _requireExists, if_neg (by simp [hex])]

theorem mintedAt_ok (s : ContractState) (id : Nat)
    (hex : _exists s id = true) :
    mintedAt s id = .ok ((mapGet? s.mintBlocks id).getD 0) := by
  rw [mintedAt, _requireExists, if_pos hex]

theorem mintedAt_err (s : ContractState) (id : Nat)
    (hex : _exists s id = false) :
    mintedAt s id = .error (.tokenNotFound (tokenNotFoundMsg id)) := by
  rw [mintedAt, _requireExists, if_neg (by simp [hex])]

/-! ## The claims -/

set_option maxRecDepth 8000 in
/-- C1: a mint call whose transaction carries no output paying at least
`MINT_PRICE` to `TREASURY` fails with `PaymentNotFound` (with supply
available, so that the payment check is the one that fires); a single
qualifying output makes the payment check pass (outputs are not summed);
and the error message names both the required price — 500,000, rendered
as the digits 500000 — and the exact treasury address. -/
theorem c1_payment_guard (s : ContractState) (tx : Tx) (uri : String) :
    (s.totalSupply < 100 →
      (∀ out ∈ tx.outputs,
         ¬(out.dest = some TREASURY ∧ MINT_PRICE ≤ out.value)) →
      mint s tx uri = .error (.paymentNotFound paymentNotFoundMsg)) ∧
    ((∃ out ∈ tx.outputs, out.dest = some TREASURY ∧ MINT_PRICE ≤ out.value) →
      _requireTreasuryPayment tx.outputs = .ok ()) ∧
    (∃ a b, paymentNotFoundMsg = a ++ "500000" ++ b) ∧
    (∃ a b, paymentNotFoundMsg = a ++ TREASURY ++ b) ∧
    toString MINT_PRICE = "500000" := by
  refine ⟨?_, ?_, ?_, ?_, ?_⟩
  · intro hs hno
    exact mint_payment_error s tx uri hs
      (payment_error_of_no_qualifying_output tx.outputs hno)
  · exact payment_ok_of_qualifying_output tx.outputs
  · exact ⟨"OPFace: no output found sending ",
      " sat to treasury. Include an output to " ++ TREASURY ++
        " with at least 0.005 tBTC.", by decide⟩
  · exact ⟨"OPFace: no output found sending 500000 sat to treasury. Include an output to ",
      " with at least 0.005 tBTC.", by decide⟩
  · decide

theorem c1_payment_guard_witness :
    mint onDeployment txUnpaid "ipfs://a" =
      .error (.paymentNotFound paymentNotFoundMsg) :=
  (c1_payment_guard onDeployment txUnpaid "ipfs://a").1 (by decide) (by decide)

/-- C2: the payment check is an exact string match on the treasury
address and an inclusive threshold on the amount — with supply
available, a mint whose treasury-bound outputs are all below 500,000
units (in particular a mint with no treasury-bound output at all) fails
with `PaymentNotFound`, and a mint with an output of exactly 500,000
units to the treasury succeeds. -/
theorem c2_threshold_inclusive (s : ContractState) (tx : Tx) (uri : String) :
    (s.totalSupply < 100 →
      (∀ out ∈ tx.outputs, out.dest = some TREASURY →
         out.value < MINT_PRICE) →
      mint s tx uri = .error (.paymentNotFound paymentNotFoundMsg)) ∧
    (s.totalSupply < 100 →
      (∃ out ∈ tx.outputs, out.dest = some TREASURY ∧
         out.value = MINT_PRICE) →
      mint s tx uri = .ok (s.nextTokenId, mintedState s tx uri)) := by
  constructor
  · intro hs hbelow
    refine mint_payment_error s tx uri hs
      (payment_error_of_no_qualifying_output tx.outputs ?_)
    intro out hout hcontra
    have h1 := hbelow out hout hcontra.1
    have h2 := hcontra.2
    omega
  · intro hs hex
    obtain ⟨o, ho, hdest, hval⟩ := hex
    exact mint_success s tx uri hs
      (payment_ok_of_qualifying_output tx.outputs
        ⟨o, ho, hdest, le_of_eq hval.symm⟩)

theorem c2_threshold_inclusive_witness :
    mint onDeployment txPaid "ipfs://a" =
      .ok (onDeployment.nextTokenId,
           mintedState onDeployment txPaid "ipfs://a") :=
  (c2_threshold_inclusive onDeployment txPaid "ipfs://a").2
    (by decide) (by decide)

/-- C3: once the minted count has reached the 100-token cap, every mint
call fails with `SupplyExceeded` whatever the transaction's outputs —
the supply-cap check runs before the payment check. -/
theorem c3_supply_cap_checked_before_payment (s : ContractState) (tx : Tx)
    (uri : String) (h : 100 ≤ s.totalSupply) :
    mint s tx uri = .error (.supplyExceeded supplyExceededMsg) :=
  mint_supply_error s tx uri h

theorem c3_supply_cap_checked_before_payment_witness :
    mint fullState txPaid "ipfs://a" =
      .error (.supplyExceeded supplyExceededMsg) :=
  c3_supply_cap_checked_before_payment fullState txPaid "ipfs://a" (by decide)

/-- C4: from the deployed state (`NextTokenId = 1`, `SupplyCounter = 0`),
after any call sequence containing exactly N successful mints the supply
counter equals N and the id counter equals N + 1, with N never exceeding
100; moreover each successful mint advances `NextTokenId` by exactly 1. -/
theorem c4_counters_track_successful_mints :
    (∀ ops : List ContractOp,
       (runOps onDeployment ops).totalSupply = mintSuccesses onDeployment ops ∧
       (runOps onDeployment ops).nextTokenId =
         mintSuccesses onDeployment ops + 1 ∧
       mintSuccesses onDeployment ops ≤ 100) ∧
    (∀ (s : ContractState) (tx : Tx) (uri : String) (tokenId : Nat)
       (s1 : ContractState), mint s tx uri = .ok (tokenId, s1) →
       s1.nextTokenId = s.nextTokenId + 1) := by
  constructor
  · intro ops
    obtain ⟨h1, h2⟩ := runOps_counters ops onDeployment
    have h3 := runOps_supply_le ops onDeployment (by decide)
    have h0 : onDeployment.totalSupply = 0 := rfl
    have h0n : onDeployment.nextTokenId = 1 := rfl
    refine ⟨by omega, by omega, by omega⟩
  · intro s tx uri tokenId s1 h
    obtain ⟨-, -, -, hst⟩ := mint_ok_inv s tx uri tokenId s1 h
    subst hst
    rfl

theorem c4_counters_track_successful_mints_witness :
    (mintedState onDeployment txPaid "ipfs://a").nextTokenId =
      onDeployment.nextTokenId + 1 :=
  c4_counters_track_successful_mints.2 onDeployment txPaid "ipfs://a" 1
    (mintedState onDeployment txPaid "ipfs://a") rfl

/-- C5: a failed mint call leaves the contract state exactly as it was —
the embedded call semantics `mintCall` reverts atomically, matching the
platform guarantee the source relies on (both `Revert` sites of `mint`
run before any write) — and the failure is a `SupplyExceeded` or a
`PaymentNotFound`. -/
theorem c5_failed_mint_leaves_state_unchanged (s : ContractState) (tx : Tx)
    (uri : String) (e : ContractError)
    (h : (mintCall s tx uri).1 = .error e) :
    (mintCall s tx uri).2 = s ∧
      ((∃ m, e = .supplyExceeded m) ∨ (∃ m, e = .paymentNotFound m)) := by
  rw [mintCall] at h
  cases hm : mint s tx uri with
  | ok p =>
      obtain ⟨a, b⟩ := p
      rw [hm] at h
      exact Except.noConfusion h
  | error e2 =>
      rw [hm] at h
      have he : e2 = e := Except.error.inj h
      subst he
      refine ⟨by rw [mintCall, hm], ?_⟩
      rcases mint_error_inv s tx uri e2 hm with ⟨-, hse⟩ | ⟨-, -, hpe⟩
      · exact Or.inl ⟨supplyExceededMsg, hse⟩
      · exact Or.inr ⟨paymentNotFoundMsg, hpe⟩

theorem c5_failed_mint_leaves_state_unchanged_witness :
    (mintCall onDeployment txUnpaid "ipfs://a").2 = onDeployment ∧
      ((∃ m, ContractError.paymentNotFound paymentNotFoundMsg =
          .supplyExceeded m) ∨
       (∃ m, ContractError.paymentNotFound paymentNotFoundMsg =
          .paymentNotFound m)) :=
  c5_failed_mint_leaves_state_unchanged onDeployment txUnpaid "ipfs://a"
    (.paymentNotFound paymentNotFoundMsg) rfl

/-- C6: a successful mint returns the `NextTokenId` read at the start of
the call, and on the resulting state `minterOf` of that id returns the
caller (transaction sender) of the call and `mintedAt` returns the block
height in effect during the call. -/
theorem c6_mint_records_provenance (s : ContractState) (tx : Tx)
    (uri : String) (tokenId : Nat) (s1 : ContractState)
    (h : mint s tx uri = .ok (tokenId, s1)) :
    tokenId = s.nextTokenId ∧
      minterOf s1 tokenId = .ok tx.sender ∧
      mintedAt s1 tokenId = .ok tx.blockNumber := by
  obtain ⟨-, -, htid, hst⟩ := mint_ok_inv s tx uri tokenId s1 h
  subst hst htid
  have hex : _exists (mintedState s tx uri) s.nextTokenId = true := by
    rw [_exists]
    simp only [mintedState]
    rw [mapGet?_mapSet_self]
    rfl
  refine ⟨rfl, ?_, ?_⟩
  · rw [minterOf_ok _ _ hex]
    simp only [mintedState]
    rw [mapGet?_mapSet_self]
    rfl
  · rw [mintedAt_ok _ _ hex]
    simp only [mintedState]
    rw [mapGet?_mapSet_self]
    rfl

theorem c6_mint_records_provenance_witness :
    1 = onDeployment.nextTokenId ∧
      minterOf (mintedState onDeployment txPaid "ipfs://a") 1 =
        .ok txPaid.sender ∧
      mintedAt (mintedState onDeployment txPaid "ipfs://a") 1 =
        .ok txPaid.blockNumber :=
  c6_mint_records_provenance onDeployment txPaid "ipfs://a" 1
    (mintedState onDeployment txPaid "ipfs://a") rfl

/-- C7: provenance entries are write-once — in any reachable state an
existing `MinterOf`/`MintedAt` entry survives any further sequence of
contract operations (later mints and ownership transfers included)
unchanged, and a successful mint writes entries that were previously
unset for the id it assigns. -/
theorem c7_provenance_write_once (s : ContractState) (hs : Reachable s) :
    (∀ id m b, mapGet? s.minters id = some m →
       mapGet? s.mintBlocks id = some b →
       ∀ ops : List ContractOp,
         mapGet? (runOps s ops).minters id = some m ∧
         mapGet? (runOps s ops).mintBlocks id = some b) ∧
    (∀ (tx : Tx) (uri : String) (tokenId : Nat) (s1 : ContractState),
       mint s tx uri = .ok (tokenId, s1) →
       mapGet? s.minters tokenId = none ∧
       mapGet? s.mintBlocks tokenId = none ∧
       mapGet? s1.minters tokenId = some tx.sender ∧
       mapGet? s1.mintBlocks tokenId = some tx.blockNumber) := by
  have hwf := reachable_wellFormed s hs
  constructor
  · intro id m b hm hb ops
    exact runOps_preserves_provenance ops s hwf id m b hm hb
  · intro tx uri tokenId s1 h
    obtain ⟨-, -, htid, hst⟩ := mint_ok_inv s tx uri tokenId s1 h
    subst hst htid
    obtain ⟨hn, -, -, hmi, hmb⟩ := hwf
    refine ⟨?_, ?_, ?_, ?_⟩
    · cases hcase : mapGet? s.minters s.nextTokenId with
      | none => rfl
      | some v =>
          have : 1 ≤ s.nextTokenId ∧ s.nextTokenId ≤ s.totalSupply :=
            (hmi s.nextTokenId).mp (by rw [hcase]; rfl)
          omega
    · cases hcase : mapGet? s.mintBlocks s.nextTokenId with
      | none => rfl
      | some v =>
          have : 1 ≤ s.nextTokenId ∧ s.nextTokenId ≤ s.totalSupply :=
            (hmb s.nextTokenId).mp (by rw [hcase]; rfl)
          omega
    · simp only [mintedState]
      rw [mapGet?_mapSet_self]
    · simp only [mintedState]
      rw [mapGet?_mapSet_self]

theorem c7_provenance_write_once_witness :
    mapGet? (runOps (mintedState onDeployment txPaid "ipfs://a")
        [ContractOp.transferOp 9 1]).minters 1 = some 7 ∧
    mapGet? (runOps (mintedState onDeployment txPaid "ipfs://a")
        [ContractOp.transferOp 9 1]).mintBlocks 1 = some 42 :=
  (c7_provenance_write_once (mintedState onDeployment txPaid "ipfs://a")
      ⟨[ContractOp.mintCallOp txPaid "ipfs://a"], rfl⟩).1 1 7 42 rfl rfl
    [ContractOp.transferOp 9 1]

/-- C8: in every reachable state, `minterOf` and `mintedAt` fail with
`TokenNotFound` exactly on token ids never minted — in particular on 0
and on every id above the current supply — and succeed on every minted
id. -/
theorem c8_queries_need_existing_token (s : ContractState)
    (hs : Reachable s) (id : Nat) :
    ((id = 0 ∨ s.totalSupply < id) →
       minterOf s id = .error (.tokenNotFound (tokenNotFoundMsg id)) ∧
       mintedAt s id = .error (.tokenNotFound (tokenNotFoundMsg id))) ∧
    (_exists s id = false →
       minterOf s id = .error (.tokenNotFound (tokenNotFoundMsg id)) ∧
       mintedAt s id = .error (.tokenNotFound (tokenNotFoundMsg id))) ∧
    (_exists s id = true →
       minterOf s id = .ok ((mapGet? s.minters id).getD 0) ∧
       mintedAt s id = .ok ((mapGet? s.mintBlocks id).getD 0)) := by
  obtain ⟨hn, hle, how, hmi, hmb⟩ := reachable_wellFormed s hs
  refine ⟨?_, ?_, ?_⟩
  · intro hid
    have hex : _exists s id = false := by
      rw [_exists]
      cases hcase : (mapGet? s.owners id).isSome with
      | false => rfl
      | true => exact absurd ((how id).mp hcase) (by omega)
    exact ⟨minterOf_err s id hex, mintedAt_err s id hex⟩
  · intro hex
    exact ⟨minterOf_err s id hex, mintedAt_err s id hex⟩
  · intro hex
    exact ⟨minterOf_ok s id hex, mintedAt_ok s id hex⟩

theorem c8_queries_need_existing_token_witness :
    minterOf onDeployment 0 =
      .error (.tokenNotFound (tokenNotFoundMsg 0)) ∧
    mintedAt onDeployment 0 =
      .error (.tokenNotFound (tokenNotFoundMsg 0)) :=
  (c8_queries_need_existing_token onDeployment ⟨[], rfl⟩ 0).1 (Or.inl rfl)

/-- C9: `mintPrice` returns 500,000 and `treasury` the fixed configured
treasury address string, in every state; neither result depends on the
state (both are embedded as pure reads: they perform no storage write in
the source). -/
theorem c9_constant_accessors (s s2 : ContractState) :
    mintPrice s = 500000 ∧
      treasury s = TREASURY ∧
      treasury s =
        "bcrt1pzcu0e6e04uc5l43fvrr2czh2fxh5my8c08ggnywghw3hchznqdcsr9x2s9" ∧
      mintPrice s = mintPrice s2 ∧ treasury s = treasury s2 :=
  ⟨rfl, rfl, rfl, rfl, rfl⟩

/-- C10: mint's outcome is independent of the URI argument — from the
same state and transaction, two runs with different URIs fail with the
identical error or both succeed with the same token id and identical
state changes apart from the stored token URI; the URI is not validated
(the empty string is accepted whenever the other preconditions hold) and
is stored verbatim. -/
theorem c10_uri_independence (s : ContractState) (tx : Tx) (u1 u2 : String) :
    (∀ e, mint s tx u1 = .error e → mint s tx u2 = .error e) ∧
    (∀ tokenId s1, mint s tx u1 = .ok (tokenId, s1) →
       ∃ s2, mint s tx u2 = .ok (tokenId, s2) ∧
         s2.totalSupply = s1.totalSupply ∧
         s2.nextTokenId = s1.nextTokenId ∧
         s2.owners = s1.owners ∧
         s2.minters = s1.minters ∧
         s2.mintBlocks = s1.mintBlocks ∧
         mapGet? s1.uris tokenId = some u1 ∧
         mapGet? s2.uris tokenId = some u2 ∧
         (∀ j, j ≠ tokenId → mapGet? s2.uris j = mapGet? s1.uris j)) ∧
    (s.totalSupply < 100 → _requireTreasuryPayment tx.outputs = .ok () →
       mint s tx "" = .ok (s.nextTokenId, mintedState s tx "")) := by
  refine ⟨?_, ?_, ?_⟩
  · intro e h
    rcases mint_error_inv s tx u1 e h with ⟨hs, he⟩ | ⟨hs, hp, he⟩
    · subst he
      exact mint_supply_error s tx u2 hs
    · subst he
      exact mint_payment_error s tx u2 hs hp
  · intro tokenId s1 h
    obtain ⟨hs, hp, htid, hst⟩ := mint_ok_inv s tx u1 tokenId s1 h
    subst hst htid
    refine ⟨mintedState s tx u2, mint_success s tx u2 hs hp,
      rfl, rfl, rfl, rfl, rfl, ?_, ?_, ?_⟩
    · simp only [mintedState]
      rw [mapGet?_mapSet_self]
    · simp only [mintedState]
      rw [mapGet?_mapSet_self]
    · intro j hj
      simp only [mintedState]
      rw [mapGet?_mapSet_ne _ _ _ _ hj, mapGet?_mapSet_ne _ _ _ _ hj]
  · intro hs hp
    exact mint_success s tx "" hs hp

theorem c10_uri_independence_witness :
    mint onDeployment txPaid "" =
      .ok (onDeployment.nextTokenId, mintedState onDeployment txPaid "") :=
  (c10_uri_independence onDeployment txPaid "a" "b").2.2 (by decide) rfl

end OPFace
